import Mathlib

/-!
Verification development for the `.farcaster.celo` domain-registration app:
the frame interaction state machine (POST handler of the frame endpoint),
the frame-state codec, the minting pipeline (`src/lib/minting-service.ts`)
and the domain-name sanitizer (`src/lib/domain-generator.ts`), shallowly
embedded in Lean and checked against the design document.
-/

namespace FarcasterCelo

/-! ## Minting pipeline (src/lib/minting-service.ts) -/

/-- Parameters of a registration attempt (interface `MintingParams`).
`fid` is a JS `number`; it is modelled as `Int` so that the `fid <= 0`
check of the source is expressible (the `NaN` case of JS numbers is not
modelled). -/
structure MintingParams where
  domain : String
  bio : String
  socialLinks : Option String := none
  farcasterUsername : String
  fid : Int
  walletAddress : String
  metadataURI : String
deriving Repr, DecidableEq

/-- Modelled from the spec: the external collaborator `ethers.isAddress`
(chain-address-format validation, design document §4.3) is not part of the
repository.  It is modelled as the usual address shape: the two characters
`0x` followed by exactly 40 hexadecimal digits.  The EIP-55 mixed-case
checksum branch of the real library is not modelled; the scenarios in the
design document only use plain hexadecimal addresses. -/
def isHexDigit (c : Char) : Bool :=
  ('0' ≤ c && c ≤ '9') || ('a' ≤ c && c ≤ 'f') || ('A' ≤ c && c ≤ 'F')

/-- Modelled from the spec: chain-address-format validation (see
`isHexDigit`). -/
def ethersIsAddress (a : String) : Bool :=
  match a.data with
  | '0' :: 'x' :: rest => rest.length = 40 && rest.all isHexDigit
  | _ => false

/-- Result of `validateMintingParams`. -/
structure ValidationResult where
  isValid : Bool
  errors : List String
deriving Repr, DecidableEq

/-- Embeds `validateMintingParams` (minting-service.ts lines 218-252).
The sequential `errors.push` calls of the source are written as a
concatenation of conditional singleton lists, in source order.  JS
truthiness: `!params.domain` is subsumed by `length < 3` (the empty string
has length 0), `!params.fid || params.fid <= 0` is `fid ≤ 0` on `Int`,
`!s` on a string is `s = ""`. -/
def validateMintingParams (params : MintingParams) : ValidationResult :=
  let errors : List String :=
    (if params.domain = "" ∨ params.domain.length < 3 then
      ["Domain must be at least 3 characters"] else [])
    ++ (if params.fid = 0 ∨ params.fid ≤ 0 then
      ["Valid FID is required"] else [])
    ++ (if params.farcasterUsername = "" then
      ["Farcaster username is required"] else [])
    ++ (if params.walletAddress = "" ∨ ethersIsAddress params.walletAddress = false then
      ["Valid wallet address is required"] else [])
    ++ (if params.bio = "" ∨ params.bio.length < 1 then
      ["Bio is required"] else [])
    ++ (if params.metadataURI = "" then
      ["Metadata URI is required"] else [])
  { isValid := errors.isEmpty, errors := errors }

/-- A mined transaction receipt as returned by the provider (`tx.wait()`).
`status` is `1` on success, any other value is a revert. -/
structure TxReceipt where
  blockNumber : Nat
  gasUsed : Nat
  status : Nat
deriving Repr, DecidableEq

/-- The value returned by `contract.register(...)`: a transaction handle
with its hash and the result of awaiting `tx.wait()`.  `Except` models a
JS throw (carrying the error message), the inner `Option` models
`tx.wait()` resolving to `null`. -/
structure TxInfo where
  hash : String
  waitResult : Except String (Option TxReceipt)
deriving Repr

/-- The receipt summary placed into the outcome by the source
(`blockNumber`, `gasUsed.toString()`, `'success'`). -/
structure OutcomeReceipt where
  blockNumber : Nat
  gasUsed : String
  status : String
deriving Repr, DecidableEq

/-- Result of `registerDomainWithTransaction` (the `TransactionOutcome` of
the design document). -/
structure TransactionOutcome where
  success : Bool
  transactionHash : Option String := none
  error : Option String := none
  receipt : Option OutcomeReceipt := none
deriving Repr, DecidableEq

/-- Embeds `registerDomainWithTransaction` (minting-service.ts lines
92-171).  The effectful edges are explicit inputs: `contractAddress` is the
`CONTRACT_ADDRESS` environment constant, `registerResult` is the behaviour
of the external signer/contract call (`contract.register` followed by
`tx.wait()`).  A throw anywhere inside the `try` block is caught by the
single `catch`, which returns `success := false` with the error message. -/
def registerDomainWithTransaction (contractAddress : String)
    (_params : MintingParams) (registerResult : Except String TxInfo) :
    TransactionOutcome :=
  if contractAddress = "" then
    { success := false, error := some "Contract address not configured" }
  else
    match registerResult with
    | .error msg => { success := false, error := some msg }
    | .ok tx =>
      match tx.waitResult with
      | .error msg => { success := false, error := some msg }
      | .ok receiptOpt =>
        match receiptOpt with
        | some receipt =>
          if receipt.status = 1 then
            { success := true
              transactionHash := some tx.hash
              receipt := some { blockNumber := receipt.blockNumber
                                gasUsed := toString receipt.gasUsed
                                status := "success" } }
          else
            { success := false, error := some "Transaction failed or was reverted" }
        | none => { success := false, error := some "Transaction failed or was reverted" }

/-- Result record of `estimateMintingGas`. -/
structure GasEstimate where
  estimatedGas : String
  gasPrice : String
  estimatedCost : String
  estimatedCostUSD : String
deriving Repr, DecidableEq

/-- Decimal digits of a natural number (helper for the wei formatting of
the gas estimate). -/
def natToString (n : Nat) : String := toString n

/-- Embeds `ethers.formatEther` on a wei amount: integer part, a dot, and
the 18-digit fractional part with trailing zeros removed (at least one
fractional digit is kept).  The external library routine is modelled
exactly on naturals. -/
def formatEther (wei : Nat) : String :=
  let whole := wei / (10 ^ 18)
  let frac := wei % (10 ^ 18)
  let fracDigits := (natToString (frac + 10 ^ 18)).data.drop 1
  let trimmed := (fracDigits.reverse.dropWhile (fun c => c = '0')).reverse
  let fracPart := if trimmed.isEmpty then "0" else String.mk trimmed
  natToString whole ++ "." ++ fracPart

/-- Four-decimal fixed rendering of `2 * wei` ether in USD
(`(parseFloat(cost) * 2.0).toFixed(4)` of the source, at 2 USD per CELO).
Computed exactly on naturals with round-half-up; the IEEE-754 double
rounding of the JS original is not modelled (the fallback path, which the
design document constrains, uses literal strings and never reaches this
helper). -/
def usdTimesTwoFixed4 (wei : Nat) : String :=
  let scaled := (2 * wei * 10 ^ 4 + 10 ^ 18 / 2) / 10 ^ 18
  let whole := scaled / 10 ^ 4
  let frac := scaled % 10 ^ 4
  let fracDigits := (natToString (frac + 10 ^ 4)).data.drop 1
  natToString whole ++ "." ++ String.mk fracDigits

/-- Embeds `estimateMintingGas` (minting-service.ts lines 48-86).  The
network edge is explicit: `feeData` is the result of
`provider.getFeeData()`, `Except.error` modelling a throw anywhere in the
`try` block and the inner `Option` the possibly-null `gasPrice` field
(defaulted to 1 gwei by the source).  The `catch` branch returns the fixed
fallback estimate. -/
def estimateMintingGas (_params : MintingParams)
    (feeData : Except String (Option Nat)) : GasEstimate :=
  match feeData with
  | .ok gasPriceOpt =>
    let gasPrice := gasPriceOpt.getD (10 ^ 9)
    let estimatedGasUnits : Nat := 150000
    let estimatedGasWei := gasPrice * estimatedGasUnits
    { estimatedGas := natToString estimatedGasUnits
      gasPrice := natToString gasPrice
      estimatedCost := formatEther estimatedGasWei
      estimatedCostUSD := usdTimesTwoFixed4 estimatedGasWei }
  | .error _ =>
    { estimatedGas := "150000"
      gasPrice := "1000000000"
      estimatedCost := "0.00015"
      estimatedCostUSD := "0.30" }

/-- The fixed fallback gas estimate of the `catch` branch of
`estimateMintingGas`. -/
def fallbackGasEstimate : GasEstimate :=
  { estimatedGas := "150000"
    gasPrice := "1000000000"
    estimatedCost := "0.00015"
    estimatedCostUSD := "0.30" }

/-- One NFT metadata attribute (`trait_type`/`value` pair). -/
structure MetadataAttribute where
  trait_type : String
  value : String
deriving Repr, DecidableEq

/-- NFT metadata produced by `prepareMintMetadata`.  The source renders
`registered_at` and `expires_at` as ISO-8601 strings via the JS `Date`
built-in; the model keeps the underlying instants in milliseconds since
the epoch (the `Date` formatting is an injective external rendering of
this value). -/
structure NftMetadata where
  name : String
  description : String
  attributes : List MetadataAttribute
  registered_at : Nat
  expires_at : Nat
deriving Repr, DecidableEq

/-- Embeds `prepareMintMetadata` (minting-service.ts lines 176-205).  The
source reads the ambient clock (`new Date()` / `Date.now()`); the instant
is an explicit input `nowMs` here (both reads happen inside one call and
are modelled as the same instant). -/
def prepareMintMetadata (params : MintingParams) (nowMs : Nat) : NftMetadata :=
  { name := params.domain ++ ".farcaster.celo"
    description := "Farcaster domain owned by @" ++ params.farcasterUsername
      ++ " (FID: " ++ toString params.fid ++ ")"
    attributes :=
      [ { trait_type := "Domain", value := params.domain ++ ".farcaster.celo" }
      , { trait_type := "Farcaster Username", value := params.farcasterUsername }
      , { trait_type := "Farcaster ID", value := toString params.fid }
      , { trait_type := "Owner", value := params.walletAddress }
      , { trait_type := "Bio", value := params.bio } ]
    registered_at := nowMs
    expires_at := nowMs + 365 * 24 * 60 * 60 * 1000 }

/-! ## Frame state and codec

The frame endpoint (the `POST` handler of `app/api/frame/route.ts`,
`src/unnamed/part_005`) imports `parseFrameState`, `encodeFrameState`,
`createFrameResponse` and `generateFrameImage` from `@/lib/frame-utils`,
a module that is not part of the repository snapshot.  Those four helpers
are modelled from the design document (§3, §4.1, §6); the `POST` handler
itself is embedded from the source. -/

/-- The `page` field of `FrameState` (design document §3: enum
`{home, search, register, gallery}`). -/
inductive Page where
  | home
  | search
  | register
  | gallery
deriving Repr, DecidableEq

/-- The navigation state threaded through the stateless frame protocol
(design document §3). -/
structure FrameState where
  page : Page
  userFid : Option Nat := none
  walletConnected : Bool := false
  selectedDomain : Option String := none
deriving Repr, DecidableEq

/-- The default state returned by `parseFrameState` when no token is
present or the token is invalid (design document §4.1). -/
def defaultFrameState : FrameState :=
  { page := .home, walletConnected := false }

/-- Serialization of a page into one token character. -/
def pageChar : Page → Char
  | .home => 'h'
  | .search => 's'
  | .register => 'r'
  | .gallery => 'g'

/-- Inverse of `pageChar`; `none` on any other character. -/
def charPage (c : Char) : Option Page :=
  if c = 'h' then some .home
  else if c = 's' then some .search
  else if c = 'r' then some .register
  else if c = 'g' then some .gallery
  else none

/-- Token fragment for the optional `userFid`: absent is the empty
fragment, `some k` is `k + 1` repetitions of `f`. -/
def encodeFid : Option Nat → List Char
  | none => []
  | some k => List.replicate (k + 1) 'f'

/-- Token fragment for the optional `selectedDomain`: absent is the empty
fragment, a present domain is `+` followed by the raw domain characters
(this fragment is last in the token, so the domain may contain any
character). -/
def encodeDomain : Option String → List Char
  | none => []
  | some d => '+' :: d.data

/-- Modelled from the spec: `encodeFrameState` of `@/lib/frame-utils` is
not in the repository snapshot.  Per §4.1 it is a deterministic
serialization of `FrameState` into an opaque string token that
`parseFrameState` inverts; the concrete format (page character, wallet
flag, `|`, fid fragment, `|`, domain fragment) is a model choice, the
design document fixes no wire format. -/
def encodeFrameState (s : FrameState) : String :=
  String.mk (pageChar s.page
    :: (if s.walletConnected then '1' else '0')
    :: '|' :: (encodeFid s.userFid ++ '|' :: encodeDomain s.selectedDomain))

/-- Parser for the wallet-connected token character: `1` is true, `0` is
false, anything else is malformed. -/
def parseWc (w : Char) : Option Bool :=
  if w = '1' then some true else if w = '0' then some false else none

/-- Parser for the fid and domain fragments of the token (everything
after the first separator): a run of `f` characters, a separator, then
the optional `+`-prefixed domain tail.  `none` on any malformed tail. -/
def parseTail (rest : List Char) : Option (Option Nat × Option String) :=
  let fids := rest.takeWhile (fun c => c = 'f')
  match rest.dropWhile (fun c => c = 'f') with
  | b2 :: dom =>
    if b2 = '|' then
      let fid : Option Nat := if fids.length = 0 then none else some (fids.length - 1)
      match dom with
      | [] => some (fid, none)
      | c :: d => if c = '+' then some (fid, some (String.mk d)) else none
    else none
  | [] => none

/-- Strict parser for the token body; `none` on any malformed token. -/
def parseFrameStateCore (l : List Char) : Option FrameState :=
  match l with
  | p :: w :: b1 :: rest =>
    if b1 = '|' then
      match charPage p, parseWc w, parseTail rest with
      | some pg, some wc, some (fid, dom) =>
        some { page := pg, userFid := fid, walletConnected := wc, selectedDomain := dom }
      | _, _, _ => none
    else none
  | _ => none

/-- Modelled from the spec: `parseFrameState` of `@/lib/frame-utils` is
not in the repository snapshot.  Per §4.1 it is total: an absent token or
a token the strict parser rejects yields `defaultFrameState`; it never
raises past this boundary. -/
def parseFrameState : Option String → FrameState
  | none => defaultFrameState
  | some t => (parseFrameStateCore t.data).getD defaultFrameState

/-! ## Frame state machine (POST handler, src/unnamed/part_005) -/

/-- The inbound button/text event extracted from
`body.untrustedData` by the `POST` handler. -/
structure FrameEvent where
  fid : Option Nat := none
  buttonIndex : Option Nat := none
  inputText : Option String := none
deriving Repr, DecidableEq

/-- Modelled from the spec: `generateFrameImage` of `@/lib/frame-utils`
is the opaque image renderer of §6 (`render(title, subtitle) ->
imageDescriptor`); the descriptor is modelled as the title/subtitle
pair. -/
structure FrameImage where
  title : String
  subtitle : String
deriving Repr, DecidableEq

/-- Modelled from the spec: the opaque renderer (see `FrameImage`). -/
def generateFrameImage (title subtitle : String) : FrameImage :=
  { title := title, subtitle := subtitle }

/-- One frame button as built by the `POST` handler. -/
structure FrameButton where
  label : String
  action : String
  target : Option String := none
deriving Repr, DecidableEq

/-- Image and button list of a frame response. -/
structure FramePresentation where
  image : FrameImage
  buttons : List FrameButton
deriving Repr, DecidableEq

/-- Embeds the state/presentation computation of the `POST` handler
(src/unnamed/part_005 lines 23-101): the `nextState` spread (lines
23-27) followed by the `switch (buttonIndex)`.  The `if (inputText)`
of case 2 is JS truthiness: an absent or empty string takes the
`else` branch. -/
def frameTransition (baseUrl : String) (currentState : FrameState)
    (e : FrameEvent) : FrameState × FramePresentation :=
  let base : FrameState :=
    { currentState with userFid := e.fid, walletConnected := true }
  match e.buttonIndex with
  | some 1 =>
    ({ base with page := .search },
     { image := generateFrameImage "Find Your Domain"
         "Search for available .farcaster.celo domains"
       buttons := [ { label := "Back", action := "post" }
                  , { label := "Continue", action := "post" } ] })
  | some 2 =>
    let enterPres : FramePresentation :=
      { image := generateFrameImage "Enter Domain Name"
          "Type your desired domain name"
        buttons := [ { label := "Back", action := "post" }
                   , { label := "Check Availability", action := "post" } ] }
    match e.inputText with
    | some t =>
      if t = "" then (base, enterPres)
      else
        ({ base with page := .register, selectedDomain := some t },
         { image := generateFrameImage ("Register " ++ t ++ ".farcaster.celo")
             "Complete your domain registration"
           buttons := [ { label := "Back", action := "post" }
                      , { label := "Register Now", action := "post" } ] })
    | none => (base, enterPres)
  | some 3 =>
    ({ base with page := .gallery },
     { image := generateFrameImage "Your Domains"
         "View and manage your .farcaster.celo domains"
       buttons := [ { label := "Back", action := "post" }
                  , { label := "View on OpenSea", action := "link",
                      target := some "https://opensea.io/collection/farcaster-names" } ] })
  | _ =>
    ({ base with page := .home },
     { image := generateFrameImage "Farcaster Names"
         "Register .farcaster.celo domains with NFT functionality on Celo mainnet"
       buttons := [ { label := "Register Domain", action := "post" }
                  , { label := "My Domains", action := "post" }
                  , { label := "Visit App", action := "link", target := some baseUrl } ] })

/-- The `untrustedData` field of an inbound frame callback body. -/
structure UntrustedData where
  fid : Option Nat := none
  buttonIndex : Option Nat := none
  inputText : Option String := none
  state : Option String := none
deriving Repr, DecidableEq

/-- An inbound frame callback body (`FrameRequest`). -/
structure FrameRequest where
  untrustedData : Option UntrustedData := none
deriving Repr, DecidableEq

/-- A frame response descriptor; modelled from the spec: §6 gives the
response shape `{ image, buttons[], postUrl, state }`, packaged by the
missing `createFrameResponse` helper. -/
structure FrameResponsePayload where
  image : FrameImage
  buttons : List FrameButton
  postUrl : String
  state : Option String := none
deriving Repr, DecidableEq

/-- An HTTP response of the frame endpoint (`NextResponse.json` responds
with status 200). -/
structure HttpResponse where
  status : Nat
  body : FrameResponsePayload
deriving Repr, DecidableEq

/-- Embeds the `POST` handler of the frame endpoint (src/unnamed/part_005
lines 11-139).  The one fallible step inside the `try` block is
`request.json()`; its result is the explicit input (`Except.error` models
a parse throw), everything after it is total.  The `catch` branch returns
the fallback presentation; both branches respond via
`NextResponse.json`, i.e. with status 200. -/
def framePost (baseUrl : String) (req : Except String FrameRequest) :
    HttpResponse :=
  match req with
  | .error _ =>
    { status := 200
      body := { image := generateFrameImage "Farcaster Names"
                  "Register .farcaster.celo domains on Celo mainnet"
                buttons := [ { label := "Try Again", action := "post" }
                           , { label := "Visit App", action := "link",
                               target := some baseUrl } ]
                postUrl := baseUrl ++ "/api/frame" } }
  | .ok body =>
    let fid := body.untrustedData.bind (·.fid)
    let buttonIndex := body.untrustedData.bind (·.buttonIndex)
    let inputText := body.untrustedData.bind (·.inputText)
    let currentState := parseFrameState (body.untrustedData.bind (·.state))
    let next := frameTransition baseUrl currentState
      { fid := fid, buttonIndex := buttonIndex, inputText := inputText }
    { status := 200
      body := { image := next.2.image
                buttons := next.2.buttons
                postUrl := baseUrl ++ "/api/frame"
                state := some (encodeFrameState next.1) } }

/-! ## Domain generation (src/lib/domain-generator.ts) -/

/-- Characters the sanitizer's second step maps to a hyphen: the JS
whitespace class `\s` (its common members) and the underscore. -/
def isSpaceOrUnderscore (c : Char) : Bool :=
  c = ' ' || c = '\t' || c = '\n' || c = '\r' || c = '_'

/-- The charset `[a-z0-9-]` of both the sanitizer's filter step and the
validator's regex. -/
def isDomainChar (c : Char) : Bool :=
  ('a' ≤ c && c ≤ 'z') || ('0' ≤ c && c ≤ '9') || c = '-'

/-- Collapses every run of two or more consecutive hyphens into one
(the source's regex replacement of hyphen runs by a single hyphen). -/
def collapseHyphens : List Char → List Char
  | [] => []
  | [c] => [c]
  | a :: b :: rest =>
    if a = '-' ∧ b = '-' then collapseHyphens (b :: rest)
    else a :: collapseHyphens (b :: rest)

/-- Removes trailing hyphens (the source's regex replacement of a
trailing hyphen run by the empty string). -/
def dropTrailingHyphens (l : List Char) : List Char :=
  (l.reverse.dropWhile (fun c => c = '-')).reverse

/-- Embeds `sanitizeDomainName` (domain-generator.ts lines 39-61), step by
step in source order: lowercase, spaces/underscores to hyphens, filter to
`[a-z0-9-]`, strip leading and trailing hyphens, collapse hyphen runs,
truncate to 63 characters re-stripping trailing hyphens.  `toLowerCase`
is modelled with the ASCII `Char.toLower` (non-ASCII characters are
removed by the filter step either way). -/
def sanitizeDomainName (name : String) : String :=
  let l1 := name.data.map Char.toLower
  let l2 := l1.map (fun c => if isSpaceOrUnderscore c then '-' else c)
  let l3 := l2.filter isDomainChar
  let l4 := dropTrailingHyphens (l3.dropWhile (fun c => c = '-'))
  let l5 := collapseHyphens l4
  let l6 := if l5.length > 63 then dropTrailingHyphens (l5.take 63) else l5
  String.mk l6

/-- Whether a character list contains two consecutive hyphens
(`domain.includes('--')` of the validator). -/
def hasDoubleHyphen : List Char → Bool
  | a :: b :: rest => (a = '-' && b = '-') || hasDoubleHyphen (b :: rest)
  | _ => false

/-- Result of `validateDomainNameFormat`. -/
structure DomainValidation where
  isValid : Bool
  error : Option String := none
deriving Repr, DecidableEq

/-- Embeds `validateDomainNameFormat` (domain-generator.ts lines 66-98),
with the sequential early returns written as an if-chain in source order.
The regex test `/^[a-z0-9-]+$/` is the charset check (its
non-emptiness requirement is subsumed by the earlier empty/length
branches); `startsWith`/`endsWith` are head/last character checks. -/
def validateDomainNameFormat (domain : String) : DomainValidation :=
  if domain = "" then
    { isValid := false, error := some "Domain name is required" }
  else if domain.length < 3 then
    { isValid := false, error := some "Domain must be at least 3 characters" }
  else if domain.length > 63 then
    { isValid := false, error := some "Domain must be at most 63 characters" }
  else if ¬ (domain.data.all isDomainChar) then
    { isValid := false
      error := some "Domain can only contain lowercase letters, numbers, and hyphens" }
  else if domain.data.head? = some '-' ∨ domain.data.getLast? = some '-' then
    { isValid := false, error := some "Domain cannot start or end with a hyphen" }
  else if hasDoubleHyphen domain.data then
    { isValid := false, error := some "Domain cannot contain consecutive hyphens" }
  else
    { isValid := true }

/-- Scenario B of the design document §8: a 2-character domain, fid 0 and
an empty wallet address, the other fields valid. -/
def scenarioBParams : MintingParams :=
  { domain := "ab", bio := "hi", farcasterUsername := "alice", fid := 0,
    walletAddress := "", metadataURI := "/x" }

/-- Scenario A of the design document §8: a fully valid parameter set. -/
def scenarioAParams : MintingParams :=
  { domain := "alice", bio := "hi", farcasterUsername := "alice", fid := 123,
    walletAddress := "0xabcdefabcdefabcdefabcdefabcdefabcdefabcd",
    metadataURI := "/x" }

/-- A sample reachable frame state exercising every field of the codec
(the selected domain even contains the separator character). -/
def sampleFrameState : FrameState :=
  { page := .register, userFid := some 5, walletConnected := true,
    selectedDomain := some "ab|c" }

/-- Scenario C of the design document §8: button 2 pressed with the
input text `myname`, from an identified user. -/
def scenarioCEvent : FrameEvent :=
  { fid := some 7, buttonIndex := some 2, inputText := some "myname" }

/-! ## Theorems: minting pipeline -/

theorem ethersIsAddress_empty : ethersIsAddress "" = false := rfl

/-- C4: `validateMintingParams` returns `isValid = true` with an empty
error list exactly when all six rules hold (domain length ≥ 3, fid > 0,
username non-empty, wallet address passes chain-address-format
validation, bio length ≥ 1, metadata URI non-empty), and it reports an
error for every violated rule in the same call, not just the first. -/
theorem validateMintingParams_correct (p : MintingParams) :
    (((validateMintingParams p).isValid = true ∧ (validateMintingParams p).errors = []) ↔
      (3 ≤ p.domain.length ∧ 0 < p.fid ∧ p.farcasterUsername ≠ "" ∧
        ethersIsAddress p.walletAddress = true ∧ 1 ≤ p.bio.length ∧ p.metadataURI ≠ "")) ∧
    (p.domain.length < 3 →
      "Domain must be at least 3 characters" ∈ (validateMintingParams p).errors) ∧
    (p.fid ≤ 0 → "Valid FID is required" ∈ (validateMintingParams p).errors) ∧
    (p.farcasterUsername = "" →
      "Farcaster username is required" ∈ (validateMintingParams p).errors) ∧
    (ethersIsAddress p.walletAddress = false →
      "Valid wallet address is required" ∈ (validateMintingParams p).errors) ∧
    (p.bio.length < 1 → "Bio is required" ∈ (validateMintingParams p).errors) ∧
    (p.metadataURI = "" → "Metadata URI is required" ∈ (validateMintingParams p).errors) := by
  have e1 : (p.domain = "" ∨ p.domain.length < 3) ↔ p.domain.length < 3 :=
    ⟨fun h => h.elim (fun h0 => by rw [h0]; decide) id, Or.inr⟩
  have e2 : (p.fid = 0 ∨ p.fid ≤ 0) ↔ p.fid ≤ 0 :=
    ⟨fun h => h.elim (fun h0 => by rw [h0]) id, Or.inr⟩
  have e4 : (p.walletAddress = "" ∨ ethersIsAddress p.walletAddress = false) ↔
      ethersIsAddress p.walletAddress = false :=
    ⟨fun h => h.elim (fun h0 => by rw [h0]; rfl) id, Or.inr⟩
  have e5 : (p.bio = "" ∨ p.bio.length < 1) ↔ p.bio.length < 1 :=
    ⟨fun h => h.elim (fun h0 => by rw [h0]; decide) id, Or.inr⟩
  unfold validateMintingParams
  simp only [e1, e2, e4, e5]
  split_ifs <;> simp_all
  all_goals omega

/-- Witness for C4, scenario B of the design document: a 2-character
domain, fid 0 and an empty wallet address produce the minimum-length,
FID and wallet-address errors simultaneously in one call. -/
theorem validateMintingParams_correct_witness :
    ("Domain must be at least 3 characters" ∈
      (validateMintingParams scenarioBParams).errors) ∧
    ("Valid FID is required" ∈ (validateMintingParams scenarioBParams).errors) ∧
    ("Valid wallet address is required" ∈
      (validateMintingParams scenarioBParams).errors) := by
  refine ⟨?_, ?_, ?_⟩
  · exact (validateMintingParams_correct scenarioBParams).2.1 (by decide)
  · exact (validateMintingParams_correct scenarioBParams).2.2.1 (by decide)
  · exact (validateMintingParams_correct scenarioBParams).2.2.2.2.1 (by decide)

/-- C5: every outcome of `registerDomainWithTransaction` satisfies
exactly one of success-with-hash or failure-with-error (the two are
mutually exclusive since they fix `success` to opposite values); in
particular a mined receipt with non-success status yields
`success = false` with the revert error and no transaction hash. -/
theorem registerDomainWithTransaction_outcome (addr : String)
    (p : MintingParams) (r : Except String TxInfo) :
    (((registerDomainWithTransaction addr p r).success = true ∧
        ((registerDomainWithTransaction addr p r).transactionHash).isSome = true ∧
        (registerDomainWithTransaction addr p r).error = none) ∨
      ((registerDomainWithTransaction addr p r).success = false ∧
        ((registerDomainWithTransaction addr p r).error).isSome = true ∧
        (registerDomainWithTransaction addr p r).transactionHash = none)) ∧
    (∀ tx rec, addr ≠ "" → r = .ok tx → tx.waitResult = .ok (some rec) →
      rec.status ≠ 1 →
      (registerDomainWithTransaction addr p r).success = false ∧
      (registerDomainWithTransaction addr p r).error =
        some "Transaction failed or was reverted" ∧
      (registerDomainWithTransaction addr p r).transactionHash = none) := by
  constructor
  · unfold registerDomainWithTransaction
    split_ifs with h
    · simp
    · cases r with
      | error msg => simp
      | ok tx =>
        cases hw : tx.waitResult with
        | error msg => simp [hw]
        | ok receiptOpt =>
          cases receiptOpt with
          | none => simp [hw]
          | some rec =>
            by_cases hs : rec.status = 1
            · simp [hw, hs]
            · simp [hw, hs]
  · intro tx rec haddr hr hw hs
    subst hr
    unfold registerDomainWithTransaction
    rw [if_neg haddr]
    simp [hw, hs]

/-- Witness for C5, scenario D of the design document: a provider that
mines the transaction but returns a receipt with status 0 yields a
failure outcome with the revert error and no transaction hash. -/
theorem registerDomainWithTransaction_outcome_witness :
    (registerDomainWithTransaction "0xc0ffee" scenarioAParams
      (.ok { hash := "0xdeadbeef",
             waitResult := .ok (some { blockNumber := 100, gasUsed := 21000,
                                       status := 0 }) })).success = false ∧
    (registerDomainWithTransaction "0xc0ffee" scenarioAParams
      (.ok { hash := "0xdeadbeef",
             waitResult := .ok (some { blockNumber := 100, gasUsed := 21000,
                                       status := 0 }) })).error =
      some "Transaction failed or was reverted" ∧
    (registerDomainWithTransaction "0xc0ffee" scenarioAParams
      (.ok { hash := "0xdeadbeef",
             waitResult := .ok (some { blockNumber := 100, gasUsed := 21000,
                                       status := 0 }) })).transactionHash = none :=
  (registerDomainWithTransaction_outcome "0xc0ffee" scenarioAParams _).2
    { hash := "0xdeadbeef",
      waitResult := .ok (some { blockNumber := 100, gasUsed := 21000, status := 0 }) }
    { blockNumber := 100, gasUsed := 21000, status := 0 }
    (by decide) rfl rfl (by decide)

/-- C6: `estimateMintingGas` never raises to its caller; whenever the
network fee-data query fails (for any parameters and any error), it
returns the fixed fallback estimate, whose `estimatedGas` field is the
150000-unit constant.  Totality is by construction: the function is a
total Lean function of its inputs. -/
theorem estimateMintingGas_fallback (p : MintingParams) (msg : String) :
    estimateMintingGas p (.error msg) = fallbackGasEstimate ∧
    fallbackGasEstimate.estimatedGas = "150000" :=
  ⟨rfl, rfl⟩

/-- Counterexample for C9: `prepareMintMetadata` reads the ambient clock,
so two calls with the same parameters made at different instants return
different metadata — it is not a pure function of `MintingParams`
alone. -/
theorem prepareMintMetadata_not_pure_counterexample :
    prepareMintMetadata scenarioAParams 0 ≠ prepareMintMetadata scenarioAParams 1 := by
  intro h
  have h0 := congrArg NftMetadata.registered_at h
  simp [prepareMintMetadata] at h0

/-- C9 (amended): for a fixed invocation instant `prepareMintMetadata` is
deterministic, its name and Domain attribute are the domain plus the
`.farcaster.celo` suffix, its attribute list is Domain, Farcaster
Username, Farcaster ID, Owner, Bio (with the corresponding values), and
the expiry instant is the registration instant plus exactly 365 days. -/
theorem prepareMintMetadata_fields (p : MintingParams) (nowMs : Nat) :
    (prepareMintMetadata p nowMs).name = p.domain ++ ".farcaster.celo" ∧
    (prepareMintMetadata p nowMs).attributes.map (fun a => a.trait_type) =
      ["Domain", "Farcaster Username", "Farcaster ID", "Owner", "Bio"] ∧
    (prepareMintMetadata p nowMs).attributes.map (fun a => a.value) =
      [p.domain ++ ".farcaster.celo", p.farcasterUsername, toString p.fid,
        p.walletAddress, p.bio] ∧
    (prepareMintMetadata p nowMs).expires_at =
      (prepareMintMetadata p nowMs).registered_at + 365 * 24 * 60 * 60 * 1000 ∧
    prepareMintMetadata p nowMs = prepareMintMetadata p nowMs :=
  ⟨rfl, rfl, rfl, rfl, rfl⟩


/-! ## Theorems: frame state codec -/

theorem takeWhile_f_replicate (n : Nat) (t : List Char) :
    (List.replicate n 'f' ++ '|' :: t).takeWhile (fun c => c = 'f') =
      List.replicate n 'f' := by
  induction n with
  | zero => simp [List.takeWhile_cons]
  | succ m ih => simp [List.replicate_succ, List.takeWhile_cons, ih]

theorem dropWhile_f_replicate (n : Nat) (t : List Char) :
    (List.replicate n 'f' ++ '|' :: t).dropWhile (fun c => c = 'f') = '|' :: t := by
  induction n with
  | zero => simp [List.dropWhile_cons]
  | succ m ih => simp [List.replicate_succ, List.dropWhile_cons, ih]

theorem charPage_pageChar (pg : Page) : charPage (pageChar pg) = some pg := by
  cases pg <;> rfl

theorem parseTail_encode (fid : Option Nat) (dom : Option String) :
    parseTail (encodeFid fid ++ '|' :: encodeDomain dom) = some (fid, dom) := by
  rcases fid with _ | k <;> rcases dom with _ | d <;>
    simp [parseTail, encodeFid, encodeDomain, takeWhile_f_replicate,
      dropWhile_f_replicate, List.takeWhile_cons, List.dropWhile_cons]

theorem parseFrameState_encode (s : FrameState) :
    parseFrameState (some (encodeFrameState s)) = s := by
  rcases s with ⟨pg, fid, wc, dom⟩
  cases wc <;>
    simp [parseFrameState, encodeFrameState, parseFrameStateCore, parseWc,
      charPage_pageChar, parseTail_encode]

theorem charPage_inv (c : Char) (pg : Page) (h : charPage c = some pg) :
    pageChar pg = c := by
  unfold charPage at h
  split_ifs at h with h1 h2 h3 h4 <;>
    (injection h with h; subst h) <;> simp_all [pageChar]

theorem parseWc_inv (w : Char) (wc : Bool) (h : parseWc w = some wc) :
    (if wc then '1' else '0') = w := by
  unfold parseWc at h
  split_ifs at h with h1 h2 <;> (injection h with h; subst h) <;> simp_all

theorem all_f_eq_replicate (m : List Char) (hall : ∀ x ∈ m, x = 'f') :
    m = List.replicate m.length 'f' := by
  induction m with
  | nil => rfl
  | cons a t ih =>
    simp only [List.length_cons, List.replicate_succ, List.cons.injEq]
    exact ⟨hall a (by simp), ih fun x hx => hall x (by simp [hx])⟩

theorem encodeFid_all_f (m : List Char) (hall : ∀ x ∈ m, x = 'f') :
    encodeFid (if m.length = 0 then none else some (m.length - 1)) = m := by
  cases m with
  | nil => rfl
  | cons a t =>
    simp only [List.length_cons, Nat.succ_ne_zero, if_neg, Nat.add_sub_cancel]
    have := all_f_eq_replicate (a :: t) hall
    simp only [encodeFid]
    simpa using this.symm

theorem parseTail_inv (rest : List Char) (fid : Option Nat) (dom : Option String)
    (h : parseTail rest = some (fid, dom)) :
    rest = encodeFid fid ++ '|' :: encodeDomain dom := by
  unfold parseTail at h
  have hall : ∀ x ∈ rest.takeWhile (fun c => c = 'f'), x = 'f' := by
    intro x hx
    exact of_decide_eq_true (List.mem_takeWhile_imp (p := fun c => decide (c = 'f')) hx)
  have hf := encodeFid_all_f (rest.takeWhile (fun c => c = 'f')) hall
  have hrest : rest = rest.takeWhile (fun c => c = 'f') ++
      rest.dropWhile (fun c => c = 'f') :=
    (List.takeWhile_append_dropWhile (p := fun c => decide (c = 'f')) (l := rest)).symm
  cases hdw : rest.dropWhile (fun c => c = 'f') with
  | nil => rw [hdw] at h; simp at h
  | cons b2 dom0 =>
    rw [hdw] at h
    rw [hdw] at hrest
    cases dom0 with
    | nil =>
      dsimp only at h
      split_ifs at h with hb2 hlen
      · injection h with h
        injection h with h1 h2
        subst h1; subst h2
        rw [hb2] at hrest
        refine hrest.trans ?_
        rw [List.length_eq_zero.mp hlen]
        rfl
      · injection h with h
        injection h with h1 h2
        subst h1; subst h2
        rw [hb2] at hrest
        refine hrest.trans ?_
        rw [if_neg hlen] at hf
        rw [hf]
        rfl
    | cons c d =>
      dsimp only at h
      split_ifs at h with hb2 hc hlen
      · injection h with h
        injection h with h1 h2
        subst h1; subst h2
        rw [hb2, hc] at hrest
        refine hrest.trans ?_
        rw [List.length_eq_zero.mp hlen]
        rfl
      · injection h with h
        injection h with h1 h2
        subst h1; subst h2
        rw [hb2, hc] at hrest
        refine hrest.trans ?_
        rw [if_neg hlen] at hf
        rw [hf]
        rfl

theorem parseFrameStateCore_inv (l : List Char) (s : FrameState)
    (h : parseFrameStateCore l = some s) : l = (encodeFrameState s).data := by
  match l with
  | [] => simp [parseFrameStateCore] at h
  | [p] => simp [parseFrameStateCore] at h
  | [p, w] => simp [parseFrameStateCore] at h
  | p :: w :: b1 :: rest =>
    simp only [parseFrameStateCore] at h
    split_ifs at h with hb1
    cases hcp : charPage p with
    | none => rw [hcp] at h; dsimp only at h; exact Option.noConfusion h
    | some pg =>
      cases hwo : parseWc w with
      | none => rw [hcp, hwo] at h; dsimp only at h; exact Option.noConfusion h
      | some wc =>
        cases hpt : parseTail rest with
        | none => rw [hcp, hwo, hpt] at h; dsimp only at h; exact Option.noConfusion h
        | some pr =>
          obtain ⟨fid, dom⟩ := pr
          rw [hcp, hwo, hpt] at h
          dsimp only at h
          injection h with h
          subst h
          have hw := parseWc_inv w wc hwo
          have hp := charPage_inv p pg hcp
          have ht := parseTail_inv rest fid dom hpt
          subst hb1
          simp only [encodeFrameState]
          dsimp only
          rw [hp, hw, ← ht]

theorem parse_default_or_image (t : String) :
    parseFrameState (some t) = defaultFrameState ∨
      t = encodeFrameState (parseFrameState (some t)) := by
  cases hc : parseFrameStateCore t.data with
  | none => left; simp [parseFrameState, hc]
  | some s =>
    right
    have hd : t.data = (encodeFrameState s).data := parseFrameStateCore_inv _ _ hc
    have hps : parseFrameState (some t) = s := by simp [parseFrameState, hc]
    rw [hps]
    exact congrArg String.mk hd

/-- C2: the codec round-trips: decoding an encoded state yields the state
back, for every `FrameState` (hence in particular for every state
reachable via the frame state machine), and encoding is deterministic:
encoding equal states yields the same token. -/
theorem frameStateCodec_roundtrip (s : FrameState) :
    parseFrameState (some (encodeFrameState s)) = s ∧
    ∀ s2 : FrameState, s2 = s → encodeFrameState s2 = encodeFrameState s :=
  ⟨parseFrameState_encode s, fun _ h => h ▸ rfl⟩

/-- Witness for C2 at a state exercising every field (the selected
domain even contains the token separator character). -/
theorem frameStateCodec_roundtrip_witness :
    parseFrameState (some (encodeFrameState sampleFrameState)) = sampleFrameState ∧
    encodeFrameState sampleFrameState = encodeFrameState sampleFrameState :=
  ⟨(frameStateCodec_roundtrip sampleFrameState).1,
    (frameStateCodec_roundtrip sampleFrameState).2 sampleFrameState rfl⟩

/-- C3: decoding never fails: an absent token yields the default home
state, and so does any string that `encodeFrameState` cannot have
produced (`parseFrameState` is a total function, so it cannot raise by
construction; the design document's default state is
`defaultFrameState = { page := home, walletConnected := false }`). -/
theorem parseFrameState_default_on_invalid :
    parseFrameState none = defaultFrameState ∧
    ∀ t : String, (∀ s : FrameState, t ≠ encodeFrameState s) →
      parseFrameState (some t) = defaultFrameState := by
  refine ⟨rfl, fun t ht => ?_⟩
  rcases parse_default_or_image t with h | h
  · exact h
  · exact absurd h (ht _)

/-- Witness for C3 at the concrete garbage token `x` (too short to be an
encoding, whose images always hold at least four characters). -/
theorem parseFrameState_default_on_invalid_witness :
    parseFrameState none = defaultFrameState ∧
    parseFrameState (some "x") = defaultFrameState := by
  refine ⟨parseFrameState_default_on_invalid.1,
    parseFrameState_default_on_invalid.2 "x" ?_⟩
  intro s heq
  have hl := congrArg (fun u => u.data.length) heq
  simp [encodeFrameState] at hl

/-! ## Theorems: frame state machine -/

theorem frameTransition_buttons_ne_nil (baseUrl : String) (s : FrameState)
    (e : FrameEvent) : (frameTransition baseUrl s e).2.buttons ≠ [] := by
  rcases e with ⟨fid, bi, it⟩
  rcases bi with _ | (_ | (_ | (_ | (_ | m)))) <;>
    try rcases it with _ | t
  all_goals try by_cases ht : t = ""
  all_goals simp_all [frameTransition]

/-- Counterexample for C1: with button 2 and no input text the handler
leaves the page unchanged, so from the home state the next page is home,
not `search` as the claim states; and with button 2 and a present but
empty input text the JS truthiness test takes the availability branch,
so the next page is not `register`. -/
theorem frameTransition_table_counterexample :
    (frameTransition "http://localhost:3000" defaultFrameState
      { fid := none, buttonIndex := some 2, inputText := none }).1.page ≠ Page.search ∧
    (frameTransition "http://localhost:3000" defaultFrameState
      { fid := none, buttonIndex := some 2, inputText := some "" }).1.page ≠ Page.register := by
  decide

/-- C1 (amended): the transition is total (a total function by
construction) and always returns a non-empty button list and a page in
{home, search, register, gallery}; button 1 goes to search with
[Back, Continue]; button 2 with a present non-empty input text goes to
register with the input as selected domain and [Back, Register Now];
button 2 with absent or empty input text leaves the page unchanged with
[Back, Check Availability]; button 3 goes to gallery with
[Back, View on OpenSea]; any other or absent button index goes home with
[Register Domain, My Domains, Visit App]. -/
theorem frameTransition_table (baseUrl : String) (s : FrameState) (e : FrameEvent) :
    (frameTransition baseUrl s e).2.buttons ≠ [] ∧
    ((frameTransition baseUrl s e).1.page = Page.home ∨
      (frameTransition baseUrl s e).1.page = Page.search ∨
      (frameTransition baseUrl s e).1.page = Page.register ∨
      (frameTransition baseUrl s e).1.page = Page.gallery) ∧
    (e.buttonIndex = some 1 →
      (frameTransition baseUrl s e).1.page = Page.search ∧
      (frameTransition baseUrl s e).2.buttons.map (fun b => b.label) =
        ["Back", "Continue"]) ∧
    (∀ t : String, e.buttonIndex = some 2 → e.inputText = some t → t ≠ "" →
      (frameTransition baseUrl s e).1.page = Page.register ∧
      (frameTransition baseUrl s e).1.selectedDomain = some t ∧
      (frameTransition baseUrl s e).2.buttons.map (fun b => b.label) =
        ["Back", "Register Now"]) ∧
    (e.buttonIndex = some 2 → (e.inputText = none ∨ e.inputText = some "") →
      (frameTransition baseUrl s e).1.page = s.page ∧
      (frameTransition baseUrl s e).2.buttons.map (fun b => b.label) =
        ["Back", "Check Availability"]) ∧
    (e.buttonIndex = some 3 →
      (frameTransition baseUrl s e).1.page = Page.gallery ∧
      (frameTransition baseUrl s e).2.buttons.map (fun b => b.label) =
        ["Back", "View on OpenSea"]) ∧
    ((e.buttonIndex ≠ some 1 ∧ e.buttonIndex ≠ some 2 ∧ e.buttonIndex ≠ some 3) →
      (frameTransition baseUrl s e).1.page = Page.home ∧
      (frameTransition baseUrl s e).2.buttons.map (fun b => b.label) =
        ["Register Domain", "My Domains", "Visit App"]) := by
  rcases e with ⟨fid, bi, it⟩
  rcases bi with _ | (_ | (_ | (_ | (_ | m)))) <;>
    try rcases it with _ | t
  all_goals try by_cases ht : t = ""
  all_goals simp_all [frameTransition]
  all_goals (cases hpg : s.page <;> simp [hpg])

/-- Witness for C1 at scenario C of the design document: button 2 with
input text `myname` yields the register page, selected domain `myname`
and buttons [Back, Register Now]. -/
theorem frameTransition_table_witness :
    (frameTransition "http://localhost:3000" defaultFrameState
      scenarioCEvent).2.buttons ≠ [] ∧
    (frameTransition "http://localhost:3000" defaultFrameState
      scenarioCEvent).1.page = Page.register ∧
    (frameTransition "http://localhost:3000" defaultFrameState
      scenarioCEvent).1.selectedDomain = some "myname" ∧
    (frameTransition "http://localhost:3000" defaultFrameState
      scenarioCEvent).2.buttons.map (fun b => b.label) =
      ["Back", "Register Now"] := by
  have h := frameTransition_table "http://localhost:3000" defaultFrameState
    scenarioCEvent
  have hr := h.2.2.2.1 "myname" rfl rfl (by decide)
  exact ⟨h.1, hr.1, hr.2.1, hr.2.2⟩

/-- C7: every transition marks the wallet as connected unconditionally,
and copies the inbound identity claim into `userFid` whenever it is
present. -/
theorem frameTransition_wallet (baseUrl : String) (s : FrameState)
    (e : FrameEvent) :
    (frameTransition baseUrl s e).1.walletConnected = true ∧
    ∀ k : Nat, e.fid = some k → (frameTransition baseUrl s e).1.userFid = some k := by
  rcases e with ⟨fid, bi, it⟩
  rcases bi with _ | (_ | (_ | (_ | (_ | m)))) <;>
    try rcases it with _ | t
  all_goals try by_cases ht : t = ""
  all_goals simp_all [frameTransition]

/-- Witness for C7 at scenario C: the event carries fid 7, so the next
state has `walletConnected = true` and `userFid = some 7`. -/
theorem frameTransition_wallet_witness :
    (frameTransition "http://localhost:3000" defaultFrameState
      scenarioCEvent).1.walletConnected = true ∧
    (frameTransition "http://localhost:3000" defaultFrameState
      scenarioCEvent).1.userFid = some 7 :=
  ⟨(frameTransition_wallet "http://localhost:3000" defaultFrameState scenarioCEvent).1,
    (frameTransition_wallet "http://localhost:3000" defaultFrameState scenarioCEvent).2 7 rfl⟩

/-- C8: the frame POST endpoint always responds with status 200 and a
presentation holding a non-empty button list, for every inbound
callback — including a body whose JSON parsing fails (the `Except.error`
input), which yields the catch-branch fallback screen. -/
theorem framePost_always_renders (baseUrl : String)
    (req : Except String FrameRequest) :
    (framePost baseUrl req).status = 200 ∧
    (framePost baseUrl req).body.buttons ≠ [] := by
  cases req with
  | error msg => simp [framePost]
  | ok b =>
    refine ⟨rfl, ?_⟩
    simpa [framePost] using
      frameTransition_buttons_ne_nil baseUrl
        (parseFrameState (b.untrustedData.bind (fun u => u.state)))
        { fid := b.untrustedData.bind (fun u => u.fid),
          buttonIndex := b.untrustedData.bind (fun u => u.buttonIndex),
          inputText := b.untrustedData.bind (fun u => u.inputText) }

/-! ## Theorems: domain sanitizer -/

theorem dropWhile_head_ne {p : Char → Bool} :
    ∀ (l : List Char) (c : Char) (t : List Char),
      l.dropWhile p = c :: t → p c = false := by
  intro l
  induction l with
  | nil => intro c t h; simp [List.dropWhile] at h
  | cons a l ih =>
    intro c t h
    rw [List.dropWhile_cons] at h
    split_ifs at h with hp
    · exact ih c t h
    · injection h with h1 h2
      subst h1
      simpa using hp

theorem mem_dropWhile {p : Char → Bool} :
    ∀ (l : List Char) (x : Char), x ∈ l.dropWhile p → x ∈ l := by
  intro l
  induction l with
  | nil => intro x h; simp [List.dropWhile] at h
  | cons a l ih =>
    intro x h
    rw [List.dropWhile_cons] at h
    split_ifs at h with hp
    · exact List.mem_cons_of_mem a (ih x h)
    · exact h

theorem dropTrailingHyphens_decomp (l : List Char) :
    ∃ t, (∀ c ∈ t, c = '-') ∧ l = dropTrailingHyphens l ++ t := by
  refine ⟨(l.reverse.takeWhile (fun c => c = '-')).reverse, ?_, ?_⟩
  · intro c hc
    rw [List.mem_reverse] at hc
    exact of_decide_eq_true
      (List.mem_takeWhile_imp (p := fun c => decide (c = '-')) hc)
  · conv_lhs => rw [← List.reverse_reverse l,
      ← List.takeWhile_append_dropWhile (p := fun c => decide (c = '-')) (l := l.reverse)]
    rw [List.reverse_append]
    rfl

theorem mem_dropTrailingHyphens (l : List Char) (x : Char)
    (h : x ∈ dropTrailingHyphens l) : x ∈ l := by
  unfold dropTrailingHyphens at h
  rw [List.mem_reverse] at h
  have := mem_dropWhile _ _ h
  rwa [List.mem_reverse] at this

theorem length_dropTrailingHyphens (l : List Char) :
    (dropTrailingHyphens l).length ≤ l.length := by
  obtain ⟨t, _, hl⟩ := dropTrailingHyphens_decomp l
  conv_rhs => rw [hl]
  simp

theorem getLast_dropTrailingHyphens (l : List Char) (c : Char)
    (h : (dropTrailingHyphens l).getLast? = some c) : c ≠ '-' := by
  unfold dropTrailingHyphens at h
  rw [List.getLast?_reverse] at h
  cases hdw : l.reverse.dropWhile (fun c => c = '-') with
  | nil => rw [hdw] at h; simp at h
  | cons a t =>
    rw [hdw] at h
    simp only [List.head?_cons, Option.some.injEq] at h
    subst h
    have := dropWhile_head_ne _ _ _ hdw
    simpa using this

theorem head_dropTrailingHyphens (l : List Char) (c : Char)
    (h : (dropTrailingHyphens l).head? = some c) : l.head? = some c := by
  obtain ⟨t, _, hl⟩ := dropTrailingHyphens_decomp l
  rw [hl]
  cases hdt : dropTrailingHyphens l with
  | nil => rw [hdt] at h; simp at h
  | cons a r =>
    rw [hdt] at h
    simp only [List.head?_cons, Option.some.injEq] at h
    subst h
    simp

theorem collapseHyphens_cons (a : Char) (r : List Char) :
    ∃ t, collapseHyphens (a :: r) = a :: t := by
  induction r generalizing a with
  | nil => exact ⟨[], rfl⟩
  | cons b r ih =>
    rw [collapseHyphens]
    split_ifs with hab
    · obtain ⟨t, ht⟩ := ih b
      exact ⟨t, by rw [ht, hab.1, hab.2]⟩
    · exact ⟨collapseHyphens (b :: r), rfl⟩

theorem mem_collapseHyphens (l : List Char) (x : Char)
    (h : x ∈ collapseHyphens l) : x ∈ l := by
  induction l with
  | nil => simp [collapseHyphens] at h
  | cons a r ih =>
    cases r with
    | nil => simp only [collapseHyphens] at h; exact h
    | cons b r2 =>
      rw [collapseHyphens] at h
      split_ifs at h with hab
      · exact List.mem_cons_of_mem a (ih h)
      · rcases List.mem_cons.mp h with h1 | h1
        · simp [h1]
        · exact List.mem_cons_of_mem a (ih h1)

theorem getLast_collapseHyphens (l : List Char) :
    (collapseHyphens l).getLast? = l.getLast? := by
  induction l with
  | nil => rfl
  | cons a r ih =>
    cases r with
    | nil => rfl
    | cons b r2 =>
      rw [collapseHyphens]
      split_ifs with hab
      · rw [ih, List.getLast?_cons_cons]
      · obtain ⟨t, ht⟩ := collapseHyphens_cons b r2
        rw [List.getLast?_cons_cons, ← ih]
        rw [ht]
        rw [List.getLast?_cons_cons]

theorem hasDoubleHyphen_collapseHyphens (l : List Char) :
    hasDoubleHyphen (collapseHyphens l) = false := by
  induction l with
  | nil => rfl
  | cons a r ih =>
    cases r with
    | nil => rfl
    | cons b r2 =>
      rw [collapseHyphens]
      split_ifs with hab
      · exact ih
      · obtain ⟨t, ht⟩ := collapseHyphens_cons b r2
        rw [ht]
        rw [hasDoubleHyphen]
        have hnab : (a = '-' && b = '-') = false := by
          rcases Decidable.em (a = '-') with ha | ha <;>
            rcases Decidable.em (b = '-') with hb | hb <;>
            simp_all
        rw [hnab, ← ht, ih]
        rfl

theorem hasDoubleHyphen_append_left (l1 l2 : List Char)
    (h : hasDoubleHyphen (l1 ++ l2) = false) : hasDoubleHyphen l1 = false := by
  induction l1 with
  | nil => rfl
  | cons a r ih =>
    cases r with
    | nil => rfl
    | cons b r2 =>
      rw [List.cons_append, List.cons_append] at h
      rw [hasDoubleHyphen] at h ⊢
      rw [Bool.or_eq_false_iff] at h ⊢
      refine ⟨h.1, ?_⟩
      have := ih
      rw [List.cons_append] at this
      exact this h.2

theorem head_take (n : Nat) (l : List Char) (c : Char)
    (h : (l.take n).head? = some c) : l.head? = some c := by
  cases l with
  | nil => simp at h
  | cons a r =>
    cases n with
    | zero => simp at h
    | succ m => simpa using h

theorem dropWhile_hyphen_head (l : List Char) (c : Char)
    (h : (l.dropWhile (fun x => x = '-')).head? = some c) : c ≠ '-' := by
  cases hdw : l.dropWhile (fun x => x = '-') with
  | nil => rw [hdw] at h; simp at h
  | cons a t =>
    rw [hdw] at h
    simp only [List.head?_cons, Option.some.injEq] at h
    subst h
    have := dropWhile_head_ne _ _ _ hdw
    simpa using this

theorem stage5_props (l3 : List Char) (h3 : ∀ x ∈ l3, isDomainChar x = true) :
    (∀ c ∈ collapseHyphens (dropTrailingHyphens
        (l3.dropWhile (fun c => c = '-'))), isDomainChar c = true) ∧
    (collapseHyphens (dropTrailingHyphens
        (l3.dropWhile (fun c => c = '-')))).head? ≠ some '-' ∧
    (collapseHyphens (dropTrailingHyphens
        (l3.dropWhile (fun c => c = '-')))).getLast? ≠ some '-' ∧
    hasDoubleHyphen (collapseHyphens (dropTrailingHyphens
        (l3.dropWhile (fun c => c = '-')))) = false := by
  set l4 := dropTrailingHyphens (l3.dropWhile (fun c => c = '-')) with h4
  refine ⟨?_, ?_, ?_, hasDoubleHyphen_collapseHyphens l4⟩
  · intro c hc
    exact h3 c (mem_dropWhile _ _ (mem_dropTrailingHyphens _ _ (mem_collapseHyphens _ _ hc)))
  · cases hl4 : l4 with
    | nil => simp [hl4, collapseHyphens]
    | cons a r =>
      obtain ⟨t, ht⟩ := collapseHyphens_cons a r
      rw [ht]
      simp only [List.head?_cons, ne_eq, Option.some.injEq]
      have : l4.head? = some a := by rw [hl4]; rfl
      rw [h4] at this
      exact head_dropTrailingHyphens _ _ this |> dropWhile_hyphen_head l3 a
  · intro hlast
    rw [getLast_collapseHyphens] at hlast
    exact getLast_dropTrailingHyphens _ _ hlast rfl

theorem mem_take_chars (n : Nat) (l : List Char) (x : Char)
    (h : x ∈ l.take n) : x ∈ l := by
  have hl := List.take_append_drop n l
  rw [← hl]
  exact List.mem_append_left _ h

theorem validate_of_props (l : List Char)
    (hmem : ∀ c ∈ l, isDomainChar c = true)
    (hhead : l.head? ≠ some '-')
    (hlast : l.getLast? ≠ some '-')
    (hdh : hasDoubleHyphen l = false)
    (hlen63 : l.length ≤ 63)
    (hlen3 : 3 ≤ l.length) :
    validateDomainNameFormat (String.mk l) = { isValid := true, error := none } := by
  have hlen : (String.mk l).length = l.length := rfl
  have hne : String.mk l ≠ "" := by
    intro h
    have h0 : l.length = 0 := congrArg String.length h
    omega
  have hall : (String.mk l).data.all isDomainChar = true :=
    List.all_eq_true.mpr hmem
  unfold validateDomainNameFormat
  rw [if_neg hne]
  rw [if_neg (show ¬(String.mk l).length < 3 by omega)]
  rw [if_neg (show ¬(String.mk l).length > 63 by omega)]
  rw [if_neg (not_not_intro hall)]
  rw [if_neg (show ¬((String.mk l).data.head? = some '-' ∨
      (String.mk l).data.getLast? = some '-') from fun h => h.elim hhead hlast)]
  rw [if_neg (show ¬(hasDoubleHyphen (String.mk l).data = true) from fun h => by
    have h2 : hasDoubleHyphen l = true := h
    rw [hdh] at h2
    exact Bool.noConfusion h2)]

/-- C10: for every input string, the sanitized name holds only lowercase
letters, digits and hyphens, never starts or ends with a hyphen, has no
two consecutive hyphens and is at most 63 characters long; consequently
whenever the result has length at least 3 the format validator accepts
it. -/
theorem sanitizeDomainName_wellformed (s : String) :
    (∀ c ∈ (sanitizeDomainName s).data, isDomainChar c = true) ∧
    (sanitizeDomainName s).data.head? ≠ some '-' ∧
    (sanitizeDomainName s).data.getLast? ≠ some '-' ∧
    hasDoubleHyphen (sanitizeDomainName s).data = false ∧
    (sanitizeDomainName s).length ≤ 63 ∧
    (3 ≤ (sanitizeDomainName s).length →
      validateDomainNameFormat (sanitizeDomainName s) =
        { isValid := true, error := none }) := by
  have h3 : ∀ x ∈ ((s.data.map Char.toLower).map
      (fun c => if isSpaceOrUnderscore c then '-' else c)).filter isDomainChar,
      isDomainChar x = true := by
    intro x hx
    exact (List.mem_filter.mp hx).2
  obtain ⟨hmem5, hhead5, hlast5, hdh5⟩ := stage5_props _ h3
  set l5 := collapseHyphens (dropTrailingHyphens
    ((((s.data.map Char.toLower).map
      (fun c => if isSpaceOrUnderscore c then '-' else c)).filter
        isDomainChar).dropWhile (fun c => c = '-'))) with h5def
  have hdef : sanitizeDomainName s = String.mk
      (if l5.length > 63 then dropTrailingHyphens (l5.take 63) else l5) := rfl
  rw [hdef]
  by_cases h63 : l5.length > 63
  · rw [if_pos h63]
    have hm : ∀ c ∈ dropTrailingHyphens (l5.take 63), isDomainChar c = true :=
      fun c hc => hmem5 c (mem_take_chars _ _ _ (mem_dropTrailingHyphens _ _ hc))
    have hh : (dropTrailingHyphens (l5.take 63)).head? ≠ some '-' := by
      intro hc
      exact hhead5 (head_take _ _ _ (head_dropTrailingHyphens _ _ hc))
    have hl : (dropTrailingHyphens (l5.take 63)).getLast? ≠ some '-' := by
      intro hc
      exact getLast_dropTrailingHyphens _ _ hc rfl
    have hd : hasDoubleHyphen (dropTrailingHyphens (l5.take 63)) = false := by
      have ht : hasDoubleHyphen (l5.take 63) = false := by
        refine hasDoubleHyphen_append_left _ (l5.drop 63) ?_
        rw [List.take_append_drop]
        exact hdh5
      obtain ⟨t, _, hdc⟩ := dropTrailingHyphens_decomp (l5.take 63)
      refine hasDoubleHyphen_append_left _ t ?_
      rw [← hdc]
      exact ht
    have hlen : (dropTrailingHyphens (l5.take 63)).length ≤ 63 := by
      refine le_trans (length_dropTrailingHyphens _) ?_
      simp [List.length_take]
    exact ⟨hm, hh, hl, hd, hlen,
      fun hlen3 => validate_of_props _ hm hh hl hd hlen hlen3⟩
  · rw [if_neg h63]
    have hlen : l5.length ≤ 63 := by omega
    exact ⟨hmem5, hhead5, hlast5, hdh5, hlen,
      fun hlen3 => validate_of_props _ hmem5 hhead5 hlast5 hdh5 hlen hlen3⟩

/-- Witness for C10 at the input `Hello World`, sanitized to
`hello-world` (length 11), which the validator accepts. -/
theorem sanitizeDomainName_wellformed_witness :
    3 ≤ (sanitizeDomainName "Hello World").length ∧
    validateDomainNameFormat (sanitizeDomainName "Hello World") =
      { isValid := true, error := none } :=
  ⟨by decide, (sanitizeDomainName_wellformed "Hello World").2.2.2.2.2 (by decide)⟩

end FarcasterCelo
